import Mathlib

/-!
Shallow embedding of the TickerAI retrieval pipeline.

Each definition translates one Python function of the repository:
  * `TOP_K_RESULTS` etc.          – src/config.py constants
  * `pySlice`                     – Python list/string slicing `l[a:b]`
  * `DocumentProcessor.chunkLoop` / `chunk_text`
                                  – DocumentProcessor.chunk_text (fuel-based,
                                    the Python `while` loop can diverge)
  * `VectorStore.query`, `VectorStore.get_context_for_query`,
    `VectorStore.ingest_documents`
                                  – the same-named methods of VectorStore
  * `OllamaProvider.generate`     – OllamaProvider.generate
  * `MCPServer.handle_stock_query`, `MCPServer.generate_ai_response`
                                  – TickerAIMCPServer._handle_stock_query and
                                    _generate_ai_response
External services (ChromaDB nearest-neighbour search, the sentence-transformer
embedding model, the Ollama HTTP endpoint, the filesystem) are oracle
parameters passed to these functions; everything the repository itself
computes is embedded.  Python floats (distances, relevance scores) are
modelled as rationals, and the `.2f` rendering of the relevance score by an
explicit placeholder `fmtFloat` (no claim depends on the rendered digits).
-/

namespace TickerAI

/-- Constants from src/config.py (the ones the embedded code reads). -/
def TOP_K_RESULTS : Nat := 5

def CHUNK_SIZE : Nat := 1000

def CHUNK_OVERLAP : Nat := 200

/-- Adjust one Python slice index to an actual list position: negative indices
count from the end (clamped below at 0), non-negative ones are clamped above
at the length. -/
def pyIndex (len : Nat) (i : Int) : Nat :=
  if i < 0 then ((len : Int) + i).toNat else min i.toNat len

/-- Python slice `l[a:b]` (step 1). -/
def pySlice {α : Type} (l : List α) (a b : Int) : List α :=
  (l.take (pyIndex l.length b)).drop (pyIndex l.length a)

/-- Python's `str.upper()`: upper-case every character. -/
def pyUpper (s : String) : String := String.mk (s.data.map Char.toUpper)

/-- The metadata dict attached to each chunk: the document-level metadata
`base` spread with the positional fields added by `chunk_text`.
`start_char`/`end_char` are Python ints, hence `Int`. -/
structure ChunkMetadata (μ : Type) where
  base : μ
  chunk_id : Nat
  start_char : Int
  end_char : Int
deriving DecidableEq, Repr

/-- One chunk dict `\x7b'text': …, 'metadata': …\x7d` produced by
`DocumentProcessor.chunk_text`. -/
structure Chunk (μ : Type) where
  text : List Char
  metadata : ChunkMetadata μ
deriving DecidableEq, Repr

namespace DocumentProcessor

/-- The `while start < len(text)` loop of `DocumentProcessor.chunk_text`,
with explicit fuel: `none` means the fuel ran out before the loop finished
(the Python loop diverges when `chunk_size - chunk_overlap ≤ 0`, since
`start` never grows). `start` is an `Int` exactly as in Python, where
`start += chunk_size - chunk_overlap` can make it negative. -/
def chunkLoop {μ : Type} (chunk_size chunk_overlap : Nat) (base : μ)
    (text : List Char) : Nat → Int → Nat → Option (List (Chunk μ))
  | 0, _, _ => none
  | fuel + 1, start, chunk_id =>
    if start < (text.length : Int) then
      match chunkLoop chunk_size chunk_overlap base text fuel
          (start + ((chunk_size : Int) - (chunk_overlap : Int)))
          (chunk_id + 1) with
      | none => none
      | some rest =>
        some (⟨pySlice text start (start + (chunk_size : Int)),
               base, chunk_id, start, start + (chunk_size : Int)⟩ :: rest)
    else
      some []

/-- `DocumentProcessor.chunk_text`: run the chunking loop from
`start = 0`, `chunk_id = 0`. -/
def chunk_text {μ : Type} (chunk_size chunk_overlap : Nat) (base : μ)
    (fuel : Nat) (text : List Char) : Option (List (Chunk μ)) :=
  chunkLoop chunk_size chunk_overlap base text fuel 0 0

/-- The chunk that the loop body builds when the window begins at the
non-negative position `s`. -/
def mkChunk {μ : Type} (chunk_size : Nat) (base : μ) (text : List Char)
    (chunk_id s : Nat) : Chunk μ :=
  ⟨pySlice text (s : Int) ((s : Int) + (chunk_size : Int)),
   base, chunk_id, (s : Int), (s : Int) + (chunk_size : Int)⟩

/-- Glue a chunk list back together the way the spec describes: the first
`stride` characters of every chunk but the last, then the whole last chunk. -/
def reconstruct {μ : Type} (stride : Nat) (cs : List (Chunk μ)) : List Char :=
  (cs.dropLast.map (fun c => c.text.take stride)).flatten ++
    (match cs.getLast? with
     | some c => c.text
     | none => [])

end DocumentProcessor

/-- The metadata dict of one query result, restricted to the two keys
`get_context_for_query` reads: `'ticker'` (a key that may be absent, hence
`Option`) and `'filename'` (read with `.get(…, 'Unknown')`). -/
structure ResultMetadata where
  ticker : Option String
  filename : Option String
deriving DecidableEq, Repr

/-- The dict returned by `collection.query` / `VectorStore.query`: parallel
nested lists of documents, metadata and distances (ChromaDB nests one level
per query embedding). -/
structure QueryResults where
  documents : List (List String)
  metadatas : List (List ResultMetadata)
  distances : List (List ℚ)
deriving DecidableEq, Repr

/-- One record of the persisted ChromaDB collection, as written by
`collection.add(documents, embeddings, metadatas, ids)`. -/
structure Record (μ : Type) where
  id : String
  document : List Char
  embedding : List ℚ
  metadata : ChunkMetadata μ
deriving DecidableEq, Repr

namespace VectorStore

/-- `VectorStore.query`: embed the query text and delegate to ChromaDB
(the oracle `chroma_query`); an empty embedding (the failure value of
`EmbeddingGenerator.generate_embedding`) short-circuits to an empty result
dict instead of propagating. -/
def query (generate_embedding : String → List ℚ)
    (chroma_query : List ℚ → Nat → QueryResults)
    (query_text : String) (n_results : Option Nat) : QueryResults :=
  let n := n_results.getD TOP_K_RESULTS
  let query_embedding := generate_embedding query_text
  if query_embedding = [] then ⟨[], [], []⟩
  else chroma_query query_embedding n

/-- The `continue` condition of the formatting loop: a result is skipped iff
the ticker argument is truthy (present and non-empty) and the result's
metadata has a `'ticker'` key whose upper-cased value differs from the
upper-cased argument. -/
def tickerExcluded (ticker : Option String) (m : ResultMetadata) : Bool :=
  match ticker, m.ticker with
  | some t, some mt => t != "" && pyUpper mt != pyUpper t
  | _, _ => false

/-- Placeholder for Python's `f"\x7brelevance:.2f\x7d"` float rendering; the
exact decimal rounding of the score is not modelled. -/
def fmtFloat (q : ℚ) : String := toString q

/-- The four lines appended to `context_parts` for one surviving result. -/
def contextEntry (i : Nat) (doc : String) (m : ResultMetadata)
    (distance : ℚ) : List String :=
  ["--- Context " ++ toString (i + 1) ++ " (Relevance: " ++
     fmtFloat (1 - distance) ++ ") ---",
   "Source: " ++ m.filename.getD "Unknown",
   "Content: " ++ doc,
   ""]

/-- The `for i, (doc, metadata, distance) in enumerate(zip(…))` loop of
`get_context_for_query`, carrying the running index `i`. -/
def contextLoop (ticker : Option String) :
    Nat → List (String × ResultMetadata × ℚ) → List String
  | _, [] => []
  | i, (doc, m, distance) :: rest =>
    if tickerExcluded ticker m then contextLoop ticker (i + 1) rest
    else contextEntry i doc m distance ++ contextLoop ticker (i + 1) rest

/-- `VectorStore.get_context_for_query`: query, guard against an empty result
set, then format the surviving results and join them with newlines. -/
def get_context_for_query (generate_embedding : String → List ℚ)
    (chroma_query : List ℚ → Nat → QueryResults)
    (q : String) (ticker : Option String) : String :=
  let results := query generate_embedding chroma_query q none
  if results.documents = [] ∨ results.documents.headD [] = [] then
    "No relevant context found."
  else
    String.intercalate "\n"
      (contextLoop ticker 0
        ((results.documents.headD []).zip
          ((results.metadatas.headD []).zip (results.distances.headD []))))

/-- `collection.add`: pair up ids, documents, embeddings and metadatas into
records (the four lists have equal length at every call site). -/
def addRecords {μ : Type} :
    List String → List (List Char) → List (List ℚ) →
      List (ChunkMetadata μ) → List (Record μ)
  | i :: is, d :: ds, e :: es, m :: ms =>
    ⟨i, d, e, m⟩ :: addRecords is ds es ms
  | _, _, _, _ => []

/-- `VectorStore.ingest_documents` as a transition on the collection state.
`chunks` stands for `DocumentProcessor().process_documents()` (a filesystem
read) and `generate_embeddings` for the embedding model; `force_refresh`
first resets the collection via `reset_collection` (delete + recreate,
i.e. the empty record list). -/
def ingest_documents {μ : Type} (chunks : List (Chunk μ))
    (generate_embeddings : List (List Char) → List (List ℚ))
    (force_refresh : Bool) (collection : List (Record μ)) : List (Record μ) :=
  let collection := if force_refresh then [] else collection
  if collection.length > 0 ∧ force_refresh = false then collection
  else if chunks.isEmpty then collection
  else
    let documents := chunks.map (fun c => c.text)
    let metadatas := chunks.map (fun c => c.metadata)
    let ids := (List.range chunks.length).map (fun i => "doc_" ++ toString i)
    let embeddings := generate_embeddings documents
    if embeddings = [] then collection
    else collection ++ addRecords ids documents embeddings metadatas

end VectorStore

namespace OllamaProvider

/-- The prompt-combination step of `OllamaProvider.generate`:
`full_prompt = prompt`, overwritten with `f"\x7bsystem_prompt\x7d\n\n\x7bprompt\x7d"`
when `system_prompt` is truthy (present and non-empty). -/
def full_prompt_of (prompt : String) (system_prompt : Option String) :
    String :=
  match system_prompt with
  | some s => if s ≠ "" then s ++ "\n\n" ++ prompt else prompt
  | none => prompt

/-- `OllamaProvider.generate`: send the combined prompt to the Ollama
endpoint (the oracle `ollama_generate`; the temperature / num_predict options
are forwarded verbatim and not modelled).  The first component is the prompt
string actually sent; the second is the outcome, where an endpoint exception
becomes a raised `RuntimeError` carrying the remediation hint. -/
def generate (ollama_generate : String → Except String String)
    (model : String) (prompt : String) (system_prompt : Option String) :
    String × Except String String :=
  let full_prompt := full_prompt_of prompt system_prompt
  (full_prompt,
   match ollama_generate full_prompt with
   | Except.ok response => Except.ok response
   | Except.error e =>
     Except.error ("Error: " ++ e ++
       "\n\nMake sure Ollama is running: ollama serve\nAnd model '" ++
       model ++ "' is installed: ollama pull " ++ model))

end OllamaProvider

namespace MCPServer

/-- The `arguments` dict of a `query_stock` tool call; `none` models an
absent key (`arguments.get(key, "")` then yields `""`). -/
structure Arguments where
  ticker : Option String
  query : Option String
  context : Option String
deriving DecidableEq, Repr

/-- Trace of the outward calls the handler made: each vector-store context
retrieval `(search_query, ticker)` and each LLM generation
`(user_prompt, system_prompt)`. -/
structure Calls where
  context_queries : List (String × String)
  llm_calls : List (String × String)
deriving DecidableEq, Repr

/-- `TickerAIMCPServer._generate_ai_response`: build the fixed-template
system and user prompts, call the LLM provider (oracle `llm_generate`),
and swallow a raised generation error into an inline
`"Error generating response: …"` string. -/
def generate_ai_response
    (llm_generate : String → String → Except String String)
    (ticker q context user_context : String) : String × Calls :=
  let system_prompt :=
    "You are a knowledgeable financial analyst AI assistant " ++
    "specializing in stock market analysis.\n" ++
    "You have access to a knowledge base containing information " ++
    "about various stocks.\n\n" ++
    "Your task is to answer questions about stock ticker " ++ ticker ++
    " based on the provided context.\n\n" ++
    "Guidelines:\n" ++
    "- Be factual and base your answers on the provided context\n" ++
    "- If the context doesn't contain enough information, " ++
    "acknowledge the limitation\n" ++
    "- Provide clear, concise, and actionable insights\n" ++
    "- Use professional financial terminology when appropriate\n" ++
    "- If asked about predictions, provide balanced analysis " ++
    "with appropriate disclaimers\n"
  let user_prompt :=
    "Stock Ticker: " ++ ticker ++ "\n" ++
    "User Question: " ++ q ++ "\n\n" ++
    "Relevant Context from Knowledge Base:\n" ++
    context ++ "\n"
  let user_prompt :=
    if user_context ≠ "" then
      user_prompt ++ "\n\nAdditional User Context: " ++ user_context
    else user_prompt
  let user_prompt := user_prompt ++
    "\n\nPlease provide a comprehensive answer to the user's " ++
    "question based on the context provided."
  match llm_generate user_prompt system_prompt with
  | Except.ok answer => (answer, ⟨[], [(user_prompt, system_prompt)]⟩)
  | Except.error e =>
    ("Error generating response: " ++ e,
     ⟨[], [(user_prompt, system_prompt)]⟩)

/-- `TickerAIMCPServer._handle_stock_query`: validate the arguments, retrieve
context (oracle `get_context`, standing for
`vector_store.get_context_for_query`), generate the answer.  The result
string travels in the ordinary text channel (the function is total and never
signals a protocol-level error); `Calls` records which services were
invoked. -/
def handle_stock_query (get_context : String → String → String)
    (llm_generate : String → String → Except String String)
    (arguments : Arguments) : String × Calls :=
  let ticker := pyUpper (arguments.ticker.getD "")
  let q := arguments.query.getD ""
  let user_context := arguments.context.getD ""
  if ticker = "" ∨ q = "" then
    ("Error: Both ticker and query are required", ⟨[], []⟩)
  else
    let search_query := ticker ++ " " ++ q
    let context := get_context search_query ticker
    let result := generate_ai_response llm_generate ticker q context
      user_context
    (result.1, ⟨[(search_query, ticker)], result.2.llm_calls⟩)

end MCPServer

/-! The proofs. -/

lemma pyIndex_natCast (len s : Nat) : pyIndex len (s : Int) = min s len := by
  simp [pyIndex]

/-- On non-negative bounds, Python slicing is drop-then-take. -/
lemma pySlice_natCast {α : Type} (l : List α) (s k : Nat) :
    pySlice l (s : Int) ((s : Int) + (k : Int)) = (l.drop s).take k := by
  have h1 : ((s : Int) + (k : Int)) = (((s + k : Nat)) : Int) := by
    push_cast; ring
  rw [pySlice, h1, pyIndex_natCast, pyIndex_natCast]
  rcases le_or_lt l.length s with hs | hs
  · rw [min_eq_right hs, List.drop_eq_nil_of_le, List.drop_eq_nil_of_le hs]
    · simp
    · rw [min_eq_right (by omega), List.length_take]
      omega
  · rw [min_eq_left hs.le]
    rcases le_or_lt (s + k) l.length with hk | hk
    · rw [min_eq_left hk, List.take_drop]
    · rw [min_eq_right hk.le, List.take_of_length_le (le_refl _),
        List.take_of_length_le]
      rw [List.length_drop]
      omega

/-- Stepping the ceiling-division chunk count once: with stride `d ≥ 1` and
`m ≥ 1` characters left, one more chunk is produced. -/
lemma ceil_div_step (d m : Nat) (hd : 1 ≤ d) (hm : 1 ≤ m) :
    (m + d - 1) / d = ((m - d) + d - 1) / d + 1 := by
  rcases le_or_lt m d with h | h
  · have h1 : m - d = 0 := by omega
    have h2 : (0 + d - 1) / d = 0 := Nat.div_eq_of_lt (by omega)
    have h3 : m + d - 1 = (m - 1) + d := by omega
    rw [h1, h2, h3, Nat.add_div_right _ (by omega),
      Nat.div_eq_of_lt (by omega)]
  · have h3 : m + d - 1 = (((m - d) + d - 1)) + d := by omega
    rw [h3, Nat.add_div_right _ (by omega)]

lemma range_index_mul_lt (L d k : Nat) (hd : 0 < d)
    (hk : k < (L + d - 1) / d) : k * d < L := by
  have h1 : (k + 1) * d ≤ L + d - 1 := (Nat.le_div_iff_mul_le hd).mp hk
  have hL : 1 ≤ L := by
    by_contra hc
    have hL0 : L = 0 := by omega
    rw [hL0, Nat.zero_add, Nat.div_eq_of_lt (by omega)] at hk
    omega
  rw [Nat.succ_mul] at h1
  omega

/-- When the divisor does not divide `L`, the ceiling division rounds up. -/
lemma ceil_div_of_mod_ne_zero (L d : Nat) (hd : 0 < d) (hmod : L % d ≠ 0) :
    (L + d - 1) / d = L / d + 1 := by
  have hdm := Nat.div_add_mod L d
  have hr : 1 ≤ L % d := by omega
  have hrd : L % d < d := Nat.mod_lt L hd
  have hsm : (L / d + 1) * d = L / d * d + d := Nat.succ_mul _ _
  have hcm : d * (L / d) = L / d * d := Nat.mul_comm _ _
  have hsplit : L + d - 1 = (L % d - 1) + (L / d + 1) * d := by omega
  rw [hsplit, Nat.add_mul_div_right _ _ hd, Nat.div_eq_of_lt (by omega),
    Nat.zero_add]

namespace DocumentProcessor

/-- Characterization of the chunking loop under a positive stride: whenever it
terminates from a non-negative position, its output is the explicit list of
windows at positions `start, start + stride, start + 2·stride, …`. -/
lemma chunkLoop_eq_map {μ : Type} (S O : Nat) (hO : O < S) (base : μ)
    (text : List Char) :
    ∀ (fuel start chunk_id : Nat) (cs : List (Chunk μ)),
      chunkLoop S O base text fuel (start : Int) chunk_id = some cs →
      cs = (List.range ((text.length - start + (S - O) - 1) / (S - O))).map
        (fun k => mkChunk S base text (chunk_id + k) (start + k * (S - O))) := by
  intro fuel
  induction fuel with
  | zero => intro start chunk_id cs h; simp [chunkLoop] at h
  | succ fuel ih =>
    intro start chunk_id cs h
    rw [chunkLoop] at h
    by_cases hlt : (start : Int) < (text.length : Int)
    · rw [if_pos hlt] at h
      have hstart : start < text.length := by exact_mod_cast hlt
      have hcast : (start : Int) + ((S : Int) - (O : Int)) =
          (((start + (S - O) : Nat)) : Int) := by
        push_cast [Nat.cast_sub hO.le]
        ring
      rw [hcast] at h
      rcases hr : chunkLoop S O base text fuel
          (((start + (S - O) : Nat)) : Int) (chunk_id + 1) with _ | rest
      · rw [hr] at h; simp at h
      · rw [hr] at h
        have hrest := ih (start + (S - O)) (chunk_id + 1) rest hr
        have hcs : cs = (⟨pySlice text (start : Int)
            ((start : Int) + (S : Int)), base, chunk_id, (start : Int),
            (start : Int) + (S : Int)⟩ : Chunk μ) :: rest :=
          (Option.some_inj.mp h).symm
        have hd : 1 ≤ S - O := by omega
        have hm : 1 ≤ text.length - start := by omega
        have hn : (text.length - start + (S - O) - 1) / (S - O) =
            (text.length - (start + (S - O)) + (S - O) - 1) / (S - O) + 1 := by
          have hstep := ceil_div_step (S - O) (text.length - start) hd hm
          have heq : text.length - start - (S - O) =
              text.length - (start + (S - O)) := by omega
          rw [heq] at hstep
          exact hstep
        rw [hcs, hrest, hn, List.range_succ_eq_map, List.map_cons,
          List.map_map]
        have hhead : (⟨pySlice text (start : Int)
            ((start : Int) + (S : Int)), base, chunk_id, (start : Int),
            (start : Int) + (S : Int)⟩ : Chunk μ) =
            mkChunk S base text (chunk_id + 0) (start + 0 * (S - O)) := by
          simp [mkChunk]
        have htail : ∀ k, mkChunk (μ := μ) S base text
            ((chunk_id + 1) + k) ((start + (S - O)) + k * (S - O)) =
            mkChunk S base text (chunk_id + (k + 1))
              (start + (k + 1) * (S - O)) := by
          intro k
          have e1 : (chunk_id + 1) + k = chunk_id + (k + 1) := by omega
          have e2 : (start + (S - O)) + k * (S - O) =
              start + (k + 1) * (S - O) := by ring
          rw [e1, e2]
        rw [hhead]
        congr 1
        apply List.map_congr_left
        intro k _
        simp only [Function.comp_apply]
        exact htail k
    · rw [if_neg hlt] at h
      have hge : text.length ≤ start := by
        by_contra hc
        exact hlt (by exact_mod_cast Nat.lt_of_not_le hc)
      have h0 : text.length - start = 0 := by omega
      have hn : (text.length - start + (S - O) - 1) / (S - O) = 0 := by
        rw [h0]
        exact Nat.div_eq_of_lt (by omega)
      rw [hn]
      simp at h
      simp [h.symm]

lemma chunkLoop_some_nil {μ : Type} (S O : Nat) (base : μ) (text : List Char) :
    ∀ (fuel : Nat) (start : Int) (chunk_id : Nat),
      chunkLoop S O base text fuel start chunk_id = some [] →
      ¬ start < (text.length : Int) := by
  intro fuel start chunk_id h
  cases fuel with
  | zero => simp [chunkLoop] at h
  | succ fuel =>
    rw [chunkLoop] at h
    by_cases hlt : start < (text.length : Int)
    · rw [if_pos hlt] at h
      rcases hr : chunkLoop S O base text fuel
          (start + ((S : Int) - (O : Int))) (chunk_id + 1) with _ | rest
      · rw [hr] at h; simp at h
      · rw [hr] at h; simp at h
    · exact hlt

/-- Whenever the chunking loop terminates from a non-negative position under a
positive stride, the spec's reassembly of its output gives back exactly the
not-yet-consumed suffix of the text. -/
lemma chunkLoop_reconstruct {μ : Type} (S O : Nat) (hO : O < S) (base : μ)
    (text : List Char) :
    ∀ (fuel start chunk_id : Nat) (cs : List (Chunk μ)),
      chunkLoop S O base text fuel (start : Int) chunk_id = some cs →
      reconstruct (S - O) cs = text.drop start := by
  intro fuel
  induction fuel with
  | zero => intro start chunk_id cs h; simp [chunkLoop] at h
  | succ fuel ih =>
    intro start chunk_id cs h
    rw [chunkLoop] at h
    by_cases hlt : (start : Int) < (text.length : Int)
    · rw [if_pos hlt] at h
      have hcast : (start : Int) + ((S : Int) - (O : Int)) =
          (((start + (S - O) : Nat)) : Int) := by
        push_cast [Nat.cast_sub hO.le]
        ring
      rw [hcast] at h
      rcases hr : chunkLoop S O base text fuel
          (((start + (S - O) : Nat)) : Int) (chunk_id + 1) with _ | rest
      · rw [hr] at h; simp at h
      · rw [hr] at h
        have hcs : cs = (⟨pySlice text (start : Int)
            ((start : Int) + (S : Int)), base, chunk_id, (start : Int),
            (start : Int) + (S : Int)⟩ : Chunk μ) :: rest :=
          (Option.some_inj.mp h).symm
        have hslice : pySlice text (start : Int) ((start : Int) + (S : Int)) =
            (text.drop start).take S := pySlice_natCast text start S
        cases rest with
        | nil =>
          have hge := chunkLoop_some_nil S O base text fuel
            (((start + (S - O) : Nat)) : Int) (chunk_id + 1) hr
          have hlen : text.length ≤ start + (S - O) := by
            have hle := not_lt.mp hge
            exact_mod_cast hle
          rw [hcs]
          simp only [reconstruct, List.dropLast_single, List.map_nil,
            List.flatten_nil, List.getLast?_singleton, List.nil_append]
          rw [hslice]
          apply List.take_of_length_le
          rw [List.length_drop]
          omega
        | cons r1 rs =>
          have hrec := ih (start + (S - O)) (chunk_id + 1) (r1 :: rs) hr
          rw [hcs]
          have hstep : ∀ c : Chunk μ, reconstruct (S - O) (c :: r1 :: rs) =
              c.text.take (S - O) ++ reconstruct (S - O) (r1 :: rs) := by
            intro c
            simp [reconstruct, List.dropLast_cons₂]
          rw [hstep, hrec, hslice, List.take_take,
            min_eq_left (Nat.sub_le S O)]
          have hdd : text.drop (start + (S - O)) =
              (text.drop start).drop (S - O) := by
            rw [List.drop_drop]
          rw [hdd, List.take_append_drop]
    · rw [if_neg hlt] at h
      have hge : text.length ≤ start := by
        by_contra hc
        exact hlt (by exact_mod_cast Nat.lt_of_not_le hc)
      have hnil : cs = [] := by
        simpa using (Option.some_inj.mp h).symm
      rw [hnil, List.drop_eq_nil_of_le hge]
      simp [reconstruct]

/-- Under a positive stride the loop terminates: fuel exceeding the number of
characters left is always enough. -/
lemma chunkLoop_terminates {μ : Type} (S O : Nat) (hO : O < S) (base : μ)
    (text : List Char) :
    ∀ (fuel start chunk_id : Nat), text.length - start < fuel →
      ∃ cs, chunkLoop S O base text fuel (start : Int) chunk_id = some cs := by
  intro fuel
  induction fuel with
  | zero => intro start chunk_id h; omega
  | succ fuel ih =>
    intro start chunk_id hfuel
    rw [chunkLoop]
    by_cases hlt : (start : Int) < (text.length : Int)
    · rw [if_pos hlt]
      have hstart : start < text.length := by exact_mod_cast hlt
      have hcast : (start : Int) + ((S : Int) - (O : Int)) =
          (((start + (S - O) : Nat)) : Int) := by
        push_cast [Nat.cast_sub hO.le]
        ring
      rw [hcast]
      obtain ⟨cs, hcs⟩ := ih (start + (S - O)) (chunk_id + 1) (by omega)
      rw [hcs]
      exact ⟨_, rfl⟩
    · rw [if_neg hlt]
      exact ⟨[], rfl⟩

/-- With a non-positive stride and a non-empty text the loop never
terminates: every amount of fuel is exhausted. -/
lemma chunkLoop_diverges {μ : Type} (S O : Nat) (hO : S ≤ O) (base : μ)
    (text : List Char) (htext : text ≠ []) :
    ∀ (fuel : Nat) (start : Int) (chunk_id : Nat), start ≤ 0 →
      chunkLoop S O base text fuel start chunk_id = none := by
  intro fuel
  induction fuel with
  | zero => intro start chunk_id _; rw [chunkLoop]
  | succ fuel ih =>
    intro start chunk_id hstart
    have hpos : 0 < text.length := List.length_pos.mpr htext
    have hlt : start < (text.length : Int) := by
      have hpos' : (0 : Int) < (text.length : Int) := by exact_mod_cast hpos
      omega
    rw [chunkLoop, if_pos hlt]
    have hstride : ((S : Int) - (O : Int)) ≤ 0 := by
      have hcast : (S : Int) ≤ (O : Int) := by exact_mod_cast hO
      omega
    rw [ih (start + ((S : Int) - (O : Int))) (chunk_id + 1) (by omega)]

end DocumentProcessor

open DocumentProcessor in
/-- C1: for every text of length `L` and every configuration with
`0 ≤ chunk_overlap < chunk_size`, a terminating run of `chunk_text` produces
exactly `⌈L / (chunk_size − chunk_overlap)⌉` chunks (written with the
positive-divisor ceiling formula `(L + d − 1) / d`), and concatenating the
first `chunk_size − chunk_overlap` characters of every chunk except the last
followed by the whole last chunk reconstructs the original text exactly. -/
theorem chunk_text_count_and_reconstruct {μ : Type} (S O fuel : Nat)
    (base : μ) (text : List Char) (cs : List (Chunk μ)) (hO : O < S)
    (h : chunk_text S O base fuel text = some cs) :
    cs.length = (text.length + (S - O) - 1) / (S - O) ∧
    reconstruct (S - O) cs = text := by
  have h0 : chunkLoop S O base text fuel (((0 : Nat)) : Int) 0 = some cs := h
  constructor
  · have hc := chunkLoop_eq_map S O hO base text fuel 0 0 cs h0
    rw [hc, List.length_map, List.length_range, Nat.sub_zero]
  · have hr := chunkLoop_reconstruct S O hO base text fuel 0 0 cs h0
    rw [hr, List.drop_zero]

open DocumentProcessor in
/-- Witness for C1 at `chunk_size = 5`, `chunk_overlap = 2`,
`text = "abcdefgh"`: three chunks, reassembling to the text. -/
theorem chunk_text_count_and_reconstruct_witness :
    ([⟨"abcde".toList, (), 0, 0, 5⟩, ⟨"defgh".toList, (), 1, 3, 8⟩,
      ⟨"gh".toList, (), 2, 6, 11⟩] : List (Chunk Unit)).length =
      ("abcdefgh".toList.length + (5 - 2) - 1) / (5 - 2) ∧
    reconstruct (5 - 2)
      ([⟨"abcde".toList, (), 0, 0, 5⟩, ⟨"defgh".toList, (), 1, 3, 8⟩,
        ⟨"gh".toList, (), 2, 6, 11⟩] : List (Chunk Unit)) =
      "abcdefgh".toList :=
  chunk_text_count_and_reconstruct 5 2 9 () "abcdefgh".toList _
    (by decide) (by decide)

open DocumentProcessor in
/-- C2: with `chunk_overlap ≥ chunk_size` and a non-empty text, `chunk_text`
does not terminate (every amount of fuel is exhausted — the unguarded
configuration makes the loop diverge rather than fail fast); with
`0 ≤ chunk_overlap < chunk_size` it terminates on every text, with
`length + 1` fuel always sufficient. -/
theorem chunk_text_termination_dichotomy {μ : Type} (S O : Nat) (base : μ)
    (text : List Char) :
    (S ≤ O → text ≠ [] →
      ∀ fuel, chunk_text S O base fuel text = none) ∧
    (O < S →
      ∃ cs, chunk_text S O base (text.length + 1) text = some cs) := by
  constructor
  · intro hSO htext fuel
    exact chunkLoop_diverges S O hSO base text htext fuel 0 0 (le_refl 0)
  · intro hO
    obtain ⟨cs, hcs⟩ :=
      chunkLoop_terminates S O hO base text (text.length + 1) 0 0 (by omega)
    exact ⟨cs, hcs⟩

open DocumentProcessor in
/-- Witness for C2: at `chunk_size = 3`, `chunk_overlap = 5` the loop
diverges on `"ab"`; at `chunk_size = 3`, `chunk_overlap = 2` it
terminates. -/
theorem chunk_text_termination_dichotomy_witness :
    chunk_text 3 5 () 100 "ab".toList = (none : Option (List (Chunk Unit))) ∧
    ∃ cs : List (Chunk Unit),
      chunk_text 3 2 () ("ab".toList.length + 1) "ab".toList = some cs :=
  ⟨(chunk_text_termination_dichotomy 3 5 () "ab".toList).1
      (by decide) (by decide) 100,
   (chunk_text_termination_dichotomy 3 2 () "ab".toList).2 (by decide)⟩

open DocumentProcessor in
/-- C10: under a positive stride, every produced chunk has
`end_char = start_char + chunk_size` and its text is
`text[start_char : min(end_char, len(text))]`; and when the text length is
not a multiple of the stride, the last chunk's `end_char` strictly exceeds
the text length (it is not clamped). -/
theorem chunk_text_metadata_invariant {μ : Type} (S O fuel : Nat) (base : μ)
    (text : List Char) (cs : List (Chunk μ)) (hO : O < S)
    (h : chunk_text S O base fuel text = some cs) :
    (∀ c ∈ cs, c.metadata.end_char = c.metadata.start_char + (S : Int) ∧
      ∃ s : Nat, c.metadata.start_char = (s : Int) ∧
        c.text = (text.take (min (s + S) text.length)).drop s) ∧
    (text.length % (S - O) ≠ 0 → ∀ c, cs.getLast? = some c →
      (text.length : Int) < c.metadata.end_char) := by
  have h0 : chunkLoop S O base text fuel (((0 : Nat)) : Int) 0 = some cs := h
  have hc := chunkLoop_eq_map S O hO base text fuel 0 0 cs h0
  rw [Nat.sub_zero] at hc
  have hdpos : 0 < S - O := by omega
  constructor
  · intro c hmem
    rw [hc] at hmem
    obtain ⟨k, hk, rfl⟩ := List.mem_map.mp hmem
    have hk' : k < (text.length + (S - O) - 1) / (S - O) :=
      List.mem_range.mp hk
    have hsL : k * (S - O) < text.length :=
      range_index_mul_lt text.length (S - O) k hdpos hk'
    refine ⟨rfl, 0 + k * (S - O), rfl, ?_⟩
    show pySlice text _ _ = _
    rw [pySlice_natCast text (0 + k * (S - O)) S]
    have hmin : text.take (min (0 + k * (S - O) + S) text.length) =
        text.take (0 + k * (S - O) + S) := by
      rcases le_or_lt (0 + k * (S - O) + S) text.length with hle | hlt
      · rw [min_eq_left hle]
      · rw [min_eq_right hlt.le, List.take_of_length_le (le_refl _),
          List.take_of_length_le hlt.le]
    rw [hmin, List.take_drop]
  · intro hmod c hlast
    have hL1 : 1 ≤ text.length := by
      by_contra hcon
      have hz : text.length = 0 := by omega
      rw [hz, Nat.zero_mod] at hmod
      exact hmod rfl
    set n := (text.length + (S - O) - 1) / (S - O) with hn
    have hn1 : 1 ≤ n := by
      rw [hn, Nat.one_le_div_iff hdpos]
      omega
    have hceil := ceil_div_of_mod_ne_zero text.length (S - O) hdpos hmod
    rw [hc, List.getLast?_map] at hlast
    have hsucc : n = (n - 1) + 1 := by omega
    have hrange : List.range n = List.range (n - 1) ++ [n - 1] := by
      conv_lhs => rw [hsucc]
      rw [List.range_succ]
    rw [hrange, List.getLast?_concat] at hlast
    have hceq : mkChunk S base text (0 + (n - 1)) (0 + (n - 1) * (S - O)) =
        c := by
      simpa using hlast
    rw [← hceq]
    show (text.length : Int) <
      ((0 + (n - 1) * (S - O) : Nat) : Int) + (S : Int)
    have hdm := Nat.div_add_mod text.length (S - O)
    have hcm : (S - O) * (text.length / (S - O)) =
        (text.length / (S - O)) * (S - O) := Nat.mul_comm _ _
    have hidx : n - 1 = text.length / (S - O) := by omega
    have hnat : text.length <
        0 + (text.length / (S - O)) * (S - O) + S := by
      have hrd : text.length % (S - O) < S - O :=
        Nat.mod_lt text.length hdpos
      omega
    rw [hidx]
    exact_mod_cast hnat

open DocumentProcessor in
/-- Witness for C10 at `chunk_size = 5`, `chunk_overlap = 2`,
`text = "abcdefgh"` (length 8, stride 3, `8 % 3 ≠ 0`). -/
theorem chunk_text_metadata_invariant_witness :
    (∀ c ∈ ([⟨"abcde".toList, (), 0, 0, 5⟩, ⟨"defgh".toList, (), 1, 3, 8⟩,
        ⟨"gh".toList, (), 2, 6, 11⟩] : List (Chunk Unit)),
      c.metadata.end_char = c.metadata.start_char + ((5 : Nat) : Int) ∧
      ∃ s : Nat, c.metadata.start_char = (s : Int) ∧
        c.text = ("abcdefgh".toList.take
          (min (s + 5) "abcdefgh".toList.length)).drop s) ∧
    ("abcdefgh".toList.length % (5 - 2) ≠ 0 →
      ∀ c, ([⟨"abcde".toList, (), 0, 0, 5⟩, ⟨"defgh".toList, (), 1, 3, 8⟩,
          ⟨"gh".toList, (), 2, 6, 11⟩] : List (Chunk Unit)).getLast? =
          some c →
        (("abcdefgh".toList.length : Nat) : Int) < c.metadata.end_char) :=
  chunk_text_metadata_invariant 5 2 9 () "abcdefgh".toList _
    (by decide) (by decide)

lemma pyUpper_empty : pyUpper "" = "" := rfl

open MCPServer in
/-- C3: whenever the ticker argument or the query argument of a stock query
is missing or empty, the handler returns the literal string
`"Error: Both ticker and query are required"` as its ordinary text result
(the function is total, no protocol-level error is signalled) and performs no
vector-store retrieval and no LLM call (the recorded call trace is empty). -/
theorem handle_stock_query_validation
    (get_context : String → String → String)
    (llm_generate : String → String → Except String String)
    (arguments : Arguments)
    (hmissing : arguments.ticker = none ∨ arguments.ticker = some "" ∨
      arguments.query = none ∨ arguments.query = some "") :
    handle_stock_query get_context llm_generate arguments =
      ("Error: Both ticker and query are required", ⟨[], []⟩) := by
  rcases hmissing with h | h | h | h <;>
    simp [handle_stock_query, h, pyUpper_empty]

open MCPServer in
/-- Witness for C3: missing ticker with a present query. -/
theorem handle_stock_query_validation_witness :
    handle_stock_query (fun _ _ => "some context")
      (fun _ _ => Except.ok "an answer")
      ⟨none, some "what is the price", none⟩ =
      ("Error: Both ticker and query are required", ⟨[], []⟩) :=
  handle_stock_query_validation (fun _ _ => "some context")
    (fun _ _ => Except.ok "an answer")
    ⟨none, some "what is the price", none⟩ (Or.inl rfl)

open OllamaProvider in
/-- C8: the Ollama provider sends to the inference endpoint the single string
`system_prompt ++ "\n\n" ++ prompt` when a non-empty system prompt is given,
and the prompt unchanged when no system prompt is given. -/
theorem ollama_generate_full_prompt
    (ollama_call : String → Except String String) (model prompt : String)
    (s : String) (hs : s ≠ "") :
    (generate ollama_call model prompt (some s)).1 =
      s ++ "\n\n" ++ prompt ∧
    (generate ollama_call model prompt none).1 = prompt := by
  constructor
  · simp [generate, full_prompt_of, hs]
  · simp [generate, full_prompt_of]

open OllamaProvider in
/-- Witness for C8 at a concrete system prompt and prompt. -/
theorem ollama_generate_full_prompt_witness :
    (generate (fun _ => Except.ok "reply") "llama3.2" "hello"
        (some "be brief")).1 = "be brief" ++ "\n\n" ++ "hello" ∧
    (generate (fun _ => Except.ok "reply") "llama3.2" "hello" none).1 =
      "hello" :=
  ollama_generate_full_prompt (fun _ => Except.ok "reply") "llama3.2"
    "hello" "be brief" (by decide)

open VectorStore in
/-- C5: when the collection is non-empty, ingesting without `force_refresh`
returns the collection unchanged — nothing is added and nothing is deleted,
so a second ingestion of the same directory is a no-op. -/
theorem ingest_documents_noop_when_nonempty {μ : Type}
    (chunks : List (Chunk μ))
    (generate_embeddings : List (List Char) → List (List ℚ))
    (collection : List (Record μ)) (hne : 0 < collection.length) :
    ingest_documents chunks generate_embeddings false collection =
      collection := by
  simp [ingest_documents, hne]

open VectorStore in
/-- Witness for C5 on a one-record collection. -/
theorem ingest_documents_noop_when_nonempty_witness :
    ingest_documents
      ([⟨"fresh chunk".toList, (), 0, 0, 5⟩] : List (Chunk Unit))
      (fun ds => ds.map (fun _ => [(1 : ℚ)])) false
      [⟨"doc_0", "old text".toList, [(1 : ℚ)], (), 0, 0, 8⟩] =
      [⟨"doc_0", "old text".toList, [(1 : ℚ)], (), 0, 0, 8⟩] :=
  ingest_documents_noop_when_nonempty _ _ _ (by decide)

lemma addRecords_length_of_eq {μ : Type} :
    ∀ (ids : List String) (ds : List (List Char)) (es : List (List ℚ))
      (ms : List (ChunkMetadata μ)),
      ds.length = ids.length → es.length = ids.length →
      ms.length = ids.length →
      (VectorStore.addRecords ids ds es ms).length = ids.length := by
  intro ids
  induction ids with
  | nil =>
    intro ds es ms _ _ _
    rw [VectorStore.addRecords]
    · rfl
    · intro i is d dsx e esx m msx h
      injection h
  | cons i is ih =>
    intro ds es ms hd he hm
    cases ds with
    | nil => simp at hd
    | cons d ds =>
      cases es with
      | nil => simp at he
      | cons e es =>
        cases ms with
        | nil => simp at hm
        | cons m ms =>
          rw [VectorStore.addRecords, List.length_cons, List.length_cons]
          rw [ih ds es ms (by simpa using hd) (by simpa using he)
            (by simpa using hm)]

open VectorStore in
/-- C6: with `force_refresh = true` and successful embedding generation (one
embedding per chunk), the resulting collection has exactly one record per
chunk of the current knowledge directory, and the result does not depend on
the prior collection at all — the old records are fully gone. -/
theorem ingest_documents_force_refresh_count {μ : Type}
    (chunks : List (Chunk μ))
    (generate_embeddings : List (List Char) → List (List ℚ))
    (collection : List (Record μ))
    (hlen : (generate_embeddings (chunks.map (fun c => c.text))).length =
      chunks.length) :
    (ingest_documents chunks generate_embeddings true collection).length =
      chunks.length ∧
    ingest_documents chunks generate_embeddings true collection =
      ingest_documents chunks generate_embeddings true [] := by
  refine ⟨?_, rfl⟩
  unfold ingest_documents
  simp only [if_true, List.length_nil, gt_iff_lt, Nat.lt_irrefl,
    false_and, if_false]
  by_cases hchunks : chunks.isEmpty
  · rw [if_pos hchunks]
    have : chunks = [] := List.isEmpty_iff.mp hchunks
    simp [this]
  · rw [if_neg hchunks]
    have hchz : chunks ≠ [] := by
      intro hcz
      rw [hcz] at hchunks
      exact hchunks rfl
    have hlenpos : 0 < chunks.length := List.length_pos.mpr hchz
    have hembne : generate_embeddings (chunks.map (fun c => c.text)) ≠ [] := by
      intro hz
      rw [hz] at hlen
      simp at hlen
      omega
    rw [if_neg hembne]
    rw [List.nil_append]
    rw [addRecords_length_of_eq]
    · simp
    · simp
    · simp [hlen]
    · simp

open VectorStore in
/-- Witness for C6: one chunk, a prior two-record collection, an embedding
oracle returning one vector per document. -/
theorem ingest_documents_force_refresh_count_witness :
    (ingest_documents ([⟨"abc".toList, (), 0, 0, 3⟩] : List (Chunk Unit))
        (fun ds => ds.map (fun _ => [(1 : ℚ)])) true
        [⟨"doc_0", "x".toList, [(1 : ℚ)], (), 0, 0, 1⟩,
         ⟨"doc_1", "y".toList, [(2 : ℚ)], (), 1, 0, 1⟩]).length =
      ([⟨"abc".toList, (), 0, 0, 3⟩] : List (Chunk Unit)).length ∧
    ingest_documents ([⟨"abc".toList, (), 0, 0, 3⟩] : List (Chunk Unit))
        (fun ds => ds.map (fun _ => [(1 : ℚ)])) true
        [⟨"doc_0", "x".toList, [(1 : ℚ)], (), 0, 0, 1⟩,
         ⟨"doc_1", "y".toList, [(2 : ℚ)], (), 1, 0, 1⟩] =
      ingest_documents ([⟨"abc".toList, (), 0, 0, 3⟩] : List (Chunk Unit))
        (fun ds => ds.map (fun _ => [(1 : ℚ)])) true [] :=
  ingest_documents_force_refresh_count _ _ _ (by decide)

open VectorStore in
/-- C7: when embedding generation fails (the generator returns the empty
list), `query` returns the empty result dict instead of raising, and
`get_context_for_query` consequently returns the literal
`"No relevant context found."`. -/
theorem query_embedding_failure
    (generate_embedding : String → List ℚ)
    (chroma_query : List ℚ → Nat → QueryResults)
    (q : String) (ticker : Option String) (n_results : Option Nat)
    (hfail : generate_embedding q = []) :
    query generate_embedding chroma_query q n_results =
      (⟨[], [], []⟩ : QueryResults) ∧
    get_context_for_query generate_embedding chroma_query q ticker =
      "No relevant context found." := by
  constructor
  · simp [query, hfail]
  · simp [get_context_for_query, query, hfail]

open VectorStore in
/-- Witness for C7 with an embedding oracle that always fails. -/
theorem query_embedding_failure_witness :
    query (fun _ => []) (fun _ _ => ⟨[["d"]], [[⟨none, none⟩]], [[0]]⟩)
        "AAPL revenue" none = (⟨[], [], []⟩ : QueryResults) ∧
    get_context_for_query (fun _ => [])
        (fun _ _ => ⟨[["d"]], [[⟨none, none⟩]], [[0]]⟩)
        "AAPL revenue" (some "AAPL") = "No relevant context found." :=
  query_embedding_failure (fun _ => [])
    (fun _ _ => ⟨[["d"]], [[⟨none, none⟩]], [[0]]⟩)
    "AAPL revenue" (some "AAPL") none rfl

namespace VectorStore

/-- With a truthy ticker argument, the spec's keep-predicate (keep a result
iff its metadata lacks a `'ticker'` key or the key matches the argument
case-insensitively) is the negation of the code's skip condition. -/
lemma keep_eq_not_tickerExcluded (t : String) (ht : t ≠ "")
    (m : ResultMetadata) :
    (match m.ticker with
     | some mt => pyUpper mt == pyUpper t
     | none => true) = !tickerExcluded (some t) m := by
  cases hmt : m.ticker with
  | none => simp [tickerExcluded, hmt]
  | some mt =>
    simp only [tickerExcluded, hmt]
    have ht' : (t != "") = true := by
      simp [bne_iff_ne, ht]
    rw [ht', Bool.true_and]
    simp [bne, Bool.not_not]

/-- The formatting loop is filter-then-format over the enumerated rows. -/
lemma contextLoop_eq_filter (t : String) (ht : t ≠ "") :
    ∀ (rows : List (String × ResultMetadata × ℚ)) (i : Nat),
      contextLoop (some t) i rows =
        (((rows.enumFrom i).filter (fun p =>
            match p.2.2.1.ticker with
            | some mt => pyUpper mt == pyUpper t
            | none => true)).map
          (fun p => contextEntry p.1 p.2.1 p.2.2.1 p.2.2.2)).flatten := by
  intro rows
  induction rows with
  | nil => intro i; simp [contextLoop]
  | cons r rest ih =>
    intro i
    obtain ⟨doc, m, dist⟩ := r
    rw [contextLoop, List.enumFrom_cons, List.filter_cons]
    by_cases hex : tickerExcluded (some t) m = true
    · rw [if_pos hex, ih (i + 1)]
      have hkeep : (match m.ticker with
          | some mt => pyUpper mt == pyUpper t
          | none => true) = false := by
        rw [keep_eq_not_tickerExcluded t ht m, hex]
        rfl
      simp [hkeep]
    · have hex' : tickerExcluded (some t) m = false :=
        Bool.not_eq_true _ ▸ Bool.of_not_eq_true hex
      rw [if_neg hex, ih (i + 1)]
      have hkeep : (match m.ticker with
          | some mt => pyUpper mt == pyUpper t
          | none => true) = true := by
        rw [keep_eq_not_tickerExcluded t ht m, hex']
        rfl
      simp [hkeep]

/-- A loop in which every row is skipped produces no context parts. -/
lemma contextLoop_nil_of_all_excluded (ticker : Option String) :
    ∀ (rows : List (String × ResultMetadata × ℚ)) (i : Nat),
      (∀ r ∈ rows, tickerExcluded ticker r.2.1 = true) →
      contextLoop ticker i rows = [] := by
  intro rows
  induction rows with
  | nil => intro i _; rw [contextLoop]
  | cons r rest ih =>
    intro i hall
    obtain ⟨doc, m, dist⟩ := r
    rw [contextLoop, if_pos (hall (doc, m, dist) (List.mem_cons_self _ _))]
    exact ih (i + 1) (fun r hr => hall r (List.mem_cons_of_mem _ hr))

end VectorStore

open VectorStore in
/-- C4: for every query result list and every non-empty ticker argument, the
context formatted by `get_context_for_query` consists of exactly the results
that either lack a `'ticker'` metadata field or whose `'ticker'` field
matches the argument case-insensitively — i.e. precisely the results whose
ticker field is present but mismatching are excluded. -/
theorem get_context_for_query_ticker_filter
    (generate_embedding : String → List ℚ)
    (chroma_query : List ℚ → Nat → QueryResults)
    (q t : String) (ht : t ≠ "")
    (docs : List String) (ms : List ResultMetadata) (ds : List ℚ)
    (hemb : generate_embedding q ≠ [])
    (hres : chroma_query (generate_embedding q) TOP_K_RESULTS =
      ⟨[docs], [ms], [ds]⟩)
    (hdocs : docs ≠ []) :
    get_context_for_query generate_embedding chroma_query q (some t) =
      String.intercalate "\n"
        ((((docs.zip (ms.zip ds)).enum.filter (fun p =>
            match p.2.2.1.ticker with
            | some mt => pyUpper mt == pyUpper t
            | none => true)).map
          (fun p => contextEntry p.1 p.2.1 p.2.2.1 p.2.2.2)).flatten) := by
  unfold get_context_for_query query
  simp only [Option.getD_none, if_neg hemb, hres]
  rw [if_neg]
  · simp only [List.headD_cons]
    rw [contextLoop_eq_filter t ht (docs.zip (ms.zip ds)) 0]
    rfl
  · simp [hdocs]

open VectorStore in
/-- Witness for C4: three results — a case-insensitive match `"aapl"`, a
mismatch `"TSLA"`, and a record with no ticker field — at ticker `"AAPL"`. -/
theorem get_context_for_query_ticker_filter_witness :
    get_context_for_query (fun _ => [(1 : ℚ)])
        (fun _ _ => ⟨[["d1", "d2", "d3"]],
          [[⟨some "aapl", some "a.txt"⟩, ⟨some "TSLA", none⟩,
            ⟨none, some "b.txt"⟩]],
          [[0, (1 : ℚ) / 2, (1 : ℚ) / 4]]⟩)
        "AAPL revenue" (some "AAPL") =
      String.intercalate "\n"
        (((((["d1", "d2", "d3"]).zip
            (([⟨some "aapl", some "a.txt"⟩, ⟨some "TSLA", none⟩,
               ⟨none, some "b.txt"⟩] : List ResultMetadata).zip
              [0, (1 : ℚ) / 2, (1 : ℚ) / 4])).enum.filter (fun p =>
            match p.2.2.1.ticker with
            | some mt => pyUpper mt == pyUpper "AAPL"
            | none => true)).map
          (fun p => contextEntry p.1 p.2.1 p.2.2.1 p.2.2.2)).flatten) :=
  get_context_for_query_ticker_filter (fun _ => [(1 : ℚ)])
    (fun _ _ => ⟨[["d1", "d2", "d3"]],
      [[⟨some "aapl", some "a.txt"⟩, ⟨some "TSLA", none⟩,
        ⟨none, some "b.txt"⟩]],
      [[0, (1 : ℚ) / 2, (1 : ℚ) / 4]]⟩)
    "AAPL revenue" "AAPL" (by decide)
    ["d1", "d2", "d3"]
    [⟨some "aapl", some "a.txt"⟩, ⟨some "TSLA", none⟩, ⟨none, some "b.txt"⟩]
    [0, (1 : ℚ) / 2, (1 : ℚ) / 4]
    (by decide) rfl (by decide)

open VectorStore in
/-- C9: when the vector search returns a non-empty result list but the ticker
filter excludes every result, `get_context_for_query` returns the empty
string, not the `"No relevant context found."` message (the latter is
produced only when the search itself yields zero documents). -/
theorem get_context_for_query_all_filtered_empty
    (generate_embedding : String → List ℚ)
    (chroma_query : List ℚ → Nat → QueryResults)
    (q t : String) (ht : t ≠ "")
    (docs : List String) (ms : List ResultMetadata) (ds : List ℚ)
    (hemb : generate_embedding q ≠ [])
    (hres : chroma_query (generate_embedding q) TOP_K_RESULTS =
      ⟨[docs], [ms], [ds]⟩)
    (hdocs : docs ≠ [])
    (hexcl : ∀ m ∈ ms, ∃ mt, m.ticker = some mt ∧ pyUpper mt ≠ pyUpper t) :
    get_context_for_query generate_embedding chroma_query q (some t) = "" ∧
    get_context_for_query generate_embedding chroma_query q (some t) ≠
      "No relevant context found." := by
  have hmain : get_context_for_query generate_embedding chroma_query q
      (some t) = "" := by
    unfold get_context_for_query query
    simp only [Option.getD_none, if_neg hemb, hres]
    rw [if_neg]
    · simp only [List.headD_cons]
      rw [contextLoop_nil_of_all_excluded (some t) (docs.zip (ms.zip ds)) 0]
      · rfl
      · intro r hr
        obtain ⟨a, m, d⟩ := r
        have hmem : m ∈ ms :=
          (List.of_mem_zip (List.of_mem_zip hr).2).1
        obtain ⟨mt, hmt, hne⟩ := hexcl m hmem
        simp [tickerExcluded, hmt, bne_iff_ne, ht, hne]
    · simp [hdocs]
  refine ⟨hmain, ?_⟩
  rw [hmain]
  decide

open VectorStore in
/-- Witness for C9: one result whose ticker `"TSLA"` mismatches the
argument `"AAPL"`. -/
theorem get_context_for_query_all_filtered_empty_witness :
    get_context_for_query (fun _ => [(1 : ℚ)])
        (fun _ _ => ⟨[["d1"]], [[⟨some "TSLA", some "t.txt"⟩]], [[0]]⟩)
        "AAPL revenue" (some "AAPL") = "" ∧
    get_context_for_query (fun _ => [(1 : ℚ)])
        (fun _ _ => ⟨[["d1"]], [[⟨some "TSLA", some "t.txt"⟩]], [[0]]⟩)
        "AAPL revenue" (some "AAPL") ≠ "No relevant context found." :=
  get_context_for_query_all_filtered_empty (fun _ => [(1 : ℚ)])
    (fun _ _ => ⟨[["d1"]], [[⟨some "TSLA", some "t.txt"⟩]], [[0]]⟩)
    "AAPL revenue" "AAPL" (by decide) ["d1"]
    [⟨some "TSLA", some "t.txt"⟩] [0] (by decide) rfl (by decide)
    (by
      intro m hm
      simp only [List.mem_singleton] at hm
      subst hm
      exact ⟨"TSLA", rfl, by decide⟩)

end TickerAI
